import Mathlib

/-!
Verification development for the uplexa-python core: shallow embedding of the
seed / key-derivation / sub-address / amount / payment-id logic, together with
theorems settling the specification claims.

Conventions of the embedding:
* Bytes are `Nat` values (< 256 where it matters); byte strings are `List Nat`.
* Hexadecimal strings are `List Nat` of hex-digit values (< 16); `hexlify` and
  `unhexlify` mirror `binascii.hexlify`/`unhexlify`.
* `keccak_256` from the sha3 library is implemented in full (legacy Keccak
  padding, rate 1088), so every definition is executable.
* Modules of the repository that are not available in source form
  (`uplexa/ed25519.py`, `uplexa/wordlists`, `uplexa/numbers.py`,
  `uplexa/base58.py`, `uplexa/address.py`) are modelled from the spec; each
  such definition carries a doc comment saying so.
-/

set_option maxRecDepth 100000

/-! ## Bytes and hex strings -/

/-- binascii.hexlify: each byte becomes two hex digits, high nibble first. -/
def hexlify (bs : List Nat) : List Nat :=
  bs.flatMap (fun b => [b / 16, b % 16])

/-- binascii.unhexlify: consecutive pairs of hex digits become one byte. -/
def unhexlify : List Nat → List Nat
  | d1 :: d2 :: rest => (16 * d1 + d2) :: unhexlify rest
  | _ => []

/-- Modelled from the spec: ed25519.decodeint of uplexa/ed25519.py (not under
src/) — interpret a byte string as a little-endian integer (spec 4.2 calls the
input of reduce_scalar "an arbitrary 32-byte little-endian integer"). -/
def decodeint (bs : List Nat) : Nat :=
  bs.foldr (fun b acc => b + 256 * acc) 0

/-- Modelled from the spec: ed25519.encodeint of uplexa/ed25519.py (not under
src/) — the 32 little-endian bytes of an integer. -/
def encodeint (v : Nat) : List Nat :=
  (List.range 32).map (fun i => v / 256 ^ i % 256)

/-- Modelled from the spec: ed25519.l of uplexa/ed25519.py (not under src/),
the order of the prime-order subgroup of the Ed25519 curve (spec 4.2:
"the curve's prime-order subgroup"). -/
def curveL : Nat := 2 ^ 252 + 27742317777372353535851937790883648493

/-- struct.pack of a 32-bit unsigned integer, little-endian. -/
def le32 (n : Nat) : List Nat :=
  [n % 256, n / 256 % 256, n / 65536 % 256, n / 16777216 % 256]

/-! ## Keccak-256

The sha3 library's keccak_256 (legacy Keccak padding 0x01, rate 1088 bits,
256-bit digest), implemented over `Nat` with explicit reduction mod 2^64.
State lanes are listed in index order `x + 5 * y`. -/

def rotl64 (x n : Nat) : Nat :=
  ((x <<< n) % 18446744073709551616) ||| (x >>> (64 - n))

def keccakCol (s : List Nat) (x : Nat) : Nat :=
  s.getD x 0 ^^^ s.getD (x + 5) 0 ^^^ s.getD (x + 10) 0 ^^^
    s.getD (x + 15) 0 ^^^ s.getD (x + 20) 0

def keccakTheta (s : List Nat) : List Nat :=
  (List.range 25).map (fun i =>
    s.getD i 0 ^^^ keccakCol s ((i % 5 + 4) % 5) ^^^
      rotl64 (keccakCol s ((i % 5 + 1) % 5)) 1)

/-- Rotation offsets of the ρ step, one row of five lanes per inner list
(row y holds lanes x + 5y for x = 0..4). -/
def rhoRows : List (List Nat) :=
  [[0, 1, 62, 28, 27],
   [36, 44, 6, 55, 20],
   [3, 10, 43, 25, 39],
   [41, 45, 15, 21, 8],
   [18, 2, 61, 56, 14]]

def rhoOffsets : List Nat := rhoRows.flatten

def keccakRhoPi (s : List Nat) : List Nat :=
  (List.range 25).map (fun j =>
    let x := (j % 5 + 3 * (j / 5)) % 5
    let y := j % 5
    rotl64 (s.getD (x + 5 * y) 0) (rhoOffsets.getD (x + 5 * y) 0))

def keccakChi (s : List Nat) : List Nat :=
  (List.range 25).map (fun j =>
    let x := j % 5
    let y := j / 5
    s.getD j 0 ^^^
      ((s.getD ((x + 1) % 5 + 5 * y) 0 ^^^ 18446744073709551615) &&&
        s.getD ((x + 2) % 5 + 5 * y) 0))

/-- Round constants of the ι step for the 24 rounds of Keccak-f[1600],
written in decimal. -/
def keccakRC : List Nat :=
  [1, 32898, 9223372036854808714,
   9223372039002292224, 32907, 2147483649,
   9223372039002292353, 9223372036854808585, 138,
   136, 2147516425, 2147483658,
   2147516555, 9223372036854775947, 9223372036854808713,
   9223372036854808579, 9223372036854808578, 9223372036854775936,
   32778, 9223372039002259466, 9223372039002292353,
   9223372036854808704, 2147483649, 9223372039002292232]

def keccakIota (rc : Nat) (s : List Nat) : List Nat :=
  match s with
  | [] => []
  | h :: t => (h ^^^ rc) :: t

def keccakF (s : List Nat) : List Nat :=
  keccakRC.foldl (fun st rc => keccakIota rc (keccakChi (keccakRhoPi (keccakTheta st)))) s

/-- Multi-rate padding with the legacy Keccak domain byte 0x01. -/
def keccakPad (msg : List Nat) : List Nat :=
  let q := 136 - msg.length % 136
  if q = 1 then msg ++ [0x81]
  else msg ++ 0x01 :: List.replicate (q - 2) 0 ++ [0x80]

def bytesToLane (bs : List Nat) : Nat :=
  bs.foldr (fun b acc => b + 256 * acc) 0

def blockLanes (block : List Nat) : List Nat :=
  (List.range 17).map (fun i => bytesToLane ((block.drop (8 * i)).take 8))

def absorbBlock (s : List Nat) (block : List Nat) : List Nat :=
  keccakF ((List.range 25).map (fun i => s.getD i 0 ^^^ (blockLanes block).getD i 0))

/-- Absorb a padded message 136 bytes at a time.  The first argument is fuel
(one unit per byte is more than enough: one block consumes 136), keeping the
recursion structural so that the kernel can evaluate it. -/
def absorbAux : Nat → List Nat → List Nat → List Nat
  | 0, s, _ => s
  | fuel + 1, s, msg =>
    if msg.length = 0 then s
    else absorbAux fuel (absorbBlock s (msg.take 136)) (msg.drop 136)

def laneBytes (v : Nat) : List Nat :=
  (List.range 8).map (fun i => v / 256 ^ i % 256)

/-- keccak_256 digest (32 bytes) of a byte string. -/
def keccak256 (msg : List Nat) : List Nat :=
  let padded := keccakPad msg
  let final := absorbAux padded.length (List.replicate 25 0) padded
  ((List.range 4).map (fun i => laneBytes (final.getD i 0))).flatten

/-! ## Seed key derivation (uplexa/seed.py)

A constructed Seed stores `self.hex`, a hexadecimal string, embedded here as
the list of its hex-digit values. -/

/-- Seed.is_myuplexa: the seed is the MyuPlexa-style short form when the
stored hex string has 32 characters (16 bytes). -/
def is_myuplexa (hex : List Nat) : Bool := hex.length == 32

/-- Seed.sc_reduce: decode the input little-endian, reduce modulo the subgroup
order, re-encode and hexlify. -/
def sc_reduce (input : List Nat) : List Nat :=
  hexlify (encodeint (decodeint input % curveL))

/-- Seed._hex_seed_keccak: keccak_256 of the unhexlified stored hex. -/
def hex_seed_keccak (hex : List Nat) : List Nat :=
  keccak256 (unhexlify hex)

/-- Seed.secret_spend_key. -/
def secret_spend_key (hex : List Nat) : List Nat :=
  sc_reduce (if is_myuplexa hex then hex_seed_keccak hex else unhexlify hex)

/-- Seed.secret_view_key. -/
def secret_view_key (hex : List Nat) : List Nat :=
  sc_reduce (keccak256
    (if is_myuplexa hex then hex_seed_keccak hex else unhexlify (secret_spend_key hex)))

/-- Follows the spec's words (4.2): reduce_scalar takes an arbitrary 32-byte
little-endian integer and reduces it modulo the subgroup order; rendered here
as the 32 little-endian bytes of the reduced scalar.  Kept separate from the
source-side `sc_reduce` so the two can be compared. -/
def spec_reduce_scalar (bs : List Nat) : List Nat :=
  encodeint (decodeint bs % curveL)

/-- Follows the spec's words (4.2), value form: the reduced scalar as an
integer. -/
def spec_reduce_scalar_val (bs : List Nat) : Nat :=
  decodeint bs % curveL

/-! ## Mnemonic wordlist codec

Modelled from the spec: the uplexa/wordlists package is not under src/.  Words
are represented by their wordlist indices (the wordlist is a bijection between
indices and word strings, so this loses nothing the claims depend on); a
phrase is the list of its word indices. -/

/-- Modelled from the spec (4.1): the wordlist size, "e.g. 1626". -/
def wordlistN : Nat := 1626

/-- Modelled from the spec (4.1): one 4-byte little-endian block of entropy is
mapped to three dictionary word indices by base-N arithmetic, where "word n
indexes depend on word n-1". -/
def encodeBlock (x : Nat) : List Nat :=
  [x % wordlistN,
   (x / wordlistN + x % wordlistN) % wordlistN,
   (x / wordlistN ^ 2 + (x / wordlistN + x % wordlistN) % wordlistN) % wordlistN]

/-- Modelled from the spec (4.1): decoding reverses the base-N encoding of one
three-word block exactly. -/
def decodeBlock (w1 w2 w3 : Nat) : Nat :=
  w1 + wordlistN * ((wordlistN + w2 - w1) % wordlistN)
     + wordlistN ^ 2 * ((wordlistN + w3 - w2) % wordlistN)

/-- Group a byte string into 4-byte little-endian blocks ("entropy is consumed
in 4-byte little-endian words"); a trailing group of fewer than 4 bytes is
dropped, as in the source's len-floor-division loop bound. -/
def bytesToBlocks : List Nat → List Nat
  | b0 :: b1 :: b2 :: b3 :: rest =>
      (b0 + 256 * b1 + 65536 * b2 + 16777216 * b3) :: bytesToBlocks rest
  | _ => []

/-- Decode a phrase three words at a time; a trailing group of fewer than
three words (the checksum slot) is dropped, as in the source's
len-floor-division loop bound. -/
def wordsToBlocks : List Nat → List Nat
  | w1 :: w2 :: w3 :: rest => decodeBlock w1 w2 w3 :: wordsToBlocks rest
  | _ => []

/-- Modelled from the spec (4.1): the checksum word is "computed
deterministically from a prefix of each word in the phrase (not the phrase's
own checksum slot)".  With words represented by indices, the CRC over the word
prefixes is abstracted to a fixed deterministic mixing of the word indices;
every claim below is insensitive to which deterministic function is used. -/
def checksumMix (ws : List Nat) : Nat :=
  ws.foldl (fun a w => (a * 1091 + w + 1) % 4294967296) 0

/-- Modelled from the spec (4.1): the words the checksum is computed over —
the phrase without its checksum slot (24 words for the standard class, 12 for
the short class). -/
def checksumBase (ws : List Nat) : List Nat :=
  if ws.length > 13 then ws.take 24 else ws.take 12

/-- Modelled from the spec (4.1): get_checksum — the checksum word, one of the
phrase's own non-checksum words, selected deterministically from them. -/
def get_checksum (ws : List Nat) : Nat :=
  (checksumBase ws).getD (checksumMix (checksumBase ws) % (checksumBase ws).length) 0

/-- Modelled from the spec (4.1 and 8): wordlist encode — three words per
4-byte block, then the checksum word appended (spec 8: a 32-byte entropy
"encodes to a fixed 25-word phrase (including checksum)"). -/
def wordlistEncode (bs : List Nat) : List Nat :=
  let ws := (bytesToBlocks bs).flatMap encodeBlock
  ws ++ [get_checksum ws]

def supportedWordCount (k : Nat) : Bool :=
  k == 12 || k == 13 || k == 24 || k == 25

/-- Modelled from the spec (4.1): wordlist decode — "it must reject phrases
whose length is not a supported count (12, 13, 24, 25) or that contain a word
absent from the selected wordlist" (an index beyond the wordlist); a
three-word block whose value has no 4-byte representation is likewise not the
encoding of any entropy and is rejected.  Returns the entropy bytes. -/
def wordlistDecode (ws : List Nat) : Option (List Nat) :=
  if supportedWordCount ws.length && ws.all (fun w => decide (w < wordlistN))
      && (wordsToBlocks ws).all (fun x => decide (x < 4294967296))
  then some ((wordsToBlocks ws).flatMap le32)
  else none

/-! ## Seed construction (uplexa/seed.py, Seed.__init__) -/

inductive SeedError
  | invalidChecksum
  | invalidPhrase
  | invalidHex
deriving DecidableEq

/-- The Derived state of a Seed: the stored hex string (as hex digits) and the
stored phrase (as word indices). -/
structure SeedState where
  hex : List Nat
  phrase : List Nat
deriving DecidableEq

/-- Seed._validate_checksum succeeds iff the computed checksum word equals the
phrase's last word. -/
def validate_checksum (ws : List Nat) : Bool :=
  get_checksum ws == ws.getLastD 0

/-- Seed.__init__, multi-word branches: `phrase_or_hex` split to at least two
tokens (the single-token branch is `seedFromHex`, the empty-argument branch is
`seedFromEmpty`).  A count of at least 24 words is the standard class, with
the checksum validated exactly when the count is 25; a count of at least 12 is
the MyuPlexa class, with the checksum validated exactly when the count is 13;
fewer than 12 words is rejected outright. -/
def seedFromPhrase (ws : List Nat) : Except SeedError SeedState :=
  if 24 ≤ ws.length then
    if ws.length = 25 ∧ validate_checksum ws = false then .error .invalidChecksum
    else
      match wordlistDecode ws with
      | some bs => .ok ⟨hexlify bs, ws⟩
      | none => .error .invalidPhrase
  else if 12 ≤ ws.length then
    if ws.length = 13 ∧ validate_checksum ws = false then .error .invalidChecksum
    else
      match wordlistDecode ws with
      | some bs => .ok ⟨hexlify bs, ws⟩
      | none => .error .invalidPhrase
  else .error .invalidPhrase

/-- Seed.__init__, single-token branch: hexadecimal input; its length must be
a multiple of 8 hex characters. -/
def seedFromHex (hexDigits : List Nat) : Except SeedError SeedState :=
  if hexDigits.length % 8 ≠ 0 then .error .invalidHex
  else .ok ⟨hexDigits, wordlistEncode (unhexlify hexDigits)⟩

/-- generate_hex of seed.py, with the output of os.urandom(n_bytes) supplied
as the byte list. -/
def generate_hex (randomBytes : List Nat) : List Nat :=
  hexlify randomBytes

/-- Seed.__init__, empty-argument branch: hex drawn from the secure random
source (by default 32 bytes, supplied here as the byte list), then encoded to
a phrase. -/
def seedFromEmpty (randomBytes : List Nat) : SeedState :=
  ⟨generate_hex randomBytes, wordlistEncode (unhexlify (generate_hex randomBytes))⟩

/-! ## Sub-address derivation (uplexa/wallet.py, Wallet.get_address) -/

inductive Net
  | mainnet
  | testnet
  | stagenet
deriving DecidableEq

/-- Modelled from the spec (4.2): uplexa/ed25519.py is not under src/ and the
spec gives only the signatures of the curve operations, so points are embedded
as the free term algebra over the operations wallet.py uses.  Distinct terms
stand for the distinct computations the source performs. -/
inductive Point
  | B : Point
  | decodepoint (bytes : List Nat) : Point
  | add_compressed (p q : Point) : Point
  | scalarmult (p : Point) (k : Nat) : Point
deriving DecidableEq

inductive WalletError
  | majorOutOfRange
  | minorOutOfRange
deriving DecidableEq

/-- Result of Wallet.get_address: either the master address object returned
unchanged, or a sub-address determined by its network byte and its two public
points (the base58/checksum rendering downstream of these is deterministic in
them; uplexa/base58.py and uplexa/address.py are not under src/). -/
inductive AddressResult
  | master
  | sub (netbyte : Nat) (spendPoint viewPoint : Point)
deriving DecidableEq

/-- The wallet data get_address consults: the backend's view_key() hex, the
master address's spend_key() hex, and the master address's network. -/
structure WalletState where
  view_key : List Nat
  spend_key : List Nat
  net : Net

def subAddrTag : List Nat := [0x53, 0x75, 0x62, 0x41, 0x64, 0x64, 0x72, 0x00]

/-- The hashed buffer of the sub-address derivation:
"SubAddr\0" ++ view key bytes ++ LE32(major) ++ LE32(minor). -/
def subaddr_hash_data (w : WalletState) (major minor : Int) : List Nat :=
  subAddrTag ++ unhexlify w.view_key ++ le32 major.toNat ++ le32 minor.toNat

/-- The integer wallet.py passes to scalarmult as the derivation scalar m:
the keccak digest of the derivation buffer, decoded little-endian. -/
def subaddr_scalar_used (w : WalletState) (major minor : Int) : Nat :=
  decodeint (keccak256 (subaddr_hash_data w major minor))

/-- The sub-address public spend point D the source computes. -/
def subaddr_spend_point (w : WalletState) (major minor : Int) : Point :=
  .add_compressed (.decodepoint (unhexlify w.spend_key))
    (.scalarmult .B (subaddr_scalar_used w major minor))

/-- The sub-address public view point C the source computes. -/
def subaddr_view_point (w : WalletState) (major minor : Int) : Point :=
  .scalarmult (subaddr_spend_point w major minor) (decodeint (unhexlify w.view_key))

/-- The sub-address spend point as the spec describes it, with the raw hash
output reduced modulo the subgroup order before the multiplication. -/
def subaddr_spend_point_reduced (w : WalletState) (major minor : Int) : Point :=
  .add_compressed (.decodepoint (unhexlify w.spend_key))
    (.scalarmult .B (spec_reduce_scalar_val (keccak256 (subaddr_hash_data w major minor))))

/-- The sub-address view point built on the reduced-scalar spend point. -/
def subaddr_view_point_reduced (w : WalletState) (major minor : Int) : Point :=
  .scalarmult (subaddr_spend_point_reduced w major minor) (decodeint (unhexlify w.view_key))

/-- The sub-address network byte: 42 for mainnet, 63 for testnet, 36 for
stagenet. -/
def sub_netbyte (n : Net) : Nat :=
  if n = .mainnet then 42 else if n = .testnet then 63 else 36

/-- Wallet.get_address: validate both indices against the uint32 range, return
the master address for (0,0), otherwise derive the sub-address. -/
def get_address (w : WalletState) (major minor : Int) : Except WalletError AddressResult :=
  if major < 0 ∨ 2 ^ 32 ≤ major then .error .majorOutOfRange
  else if minor < 0 ∨ 2 ^ 32 ≤ minor then .error .minorOutOfRange
  else if major = 0 ∧ minor = 0 then .ok .master
  else
    let m := keccak256 (subaddr_hash_data w major minor)
    let D := Point.add_compressed (.decodepoint (unhexlify w.spend_key))
      (.scalarmult .B (decodeint m))
    let C := Point.scalarmult D (decodeint (unhexlify w.view_key))
    .ok (.sub (sub_netbyte w.net) D C)

def exceptIsOk {ε α : Type} : Except ε α → Bool
  | .ok _ => true
  | .error _ => false

/-! ## Amounts and payment identifiers

Modelled from the spec: uplexa/numbers.py is not under src/ (only its tests,
src/tests/test_numbers.py, are). -/

/-- Modelled from the spec (4.5): to_atomic multiplies the decimal amount
(embedded as a rational) by 10^12 and rounds to the nearest integer, half away
from zero. -/
def to_atomic (amount : ℚ) : ℤ :=
  if 0 ≤ amount then ⌊amount * 10 ^ 12 + 1 / 2⌋ else -⌊-amount * 10 ^ 12 + 1 / 2⌋

/-- Modelled from the spec (4.5): from_atomic divides by 10^12 exactly. -/
def from_atomic (a : ℤ) : ℚ :=
  (a : ℚ) / 10 ^ 12

/-- Modelled from the spec (4.6): PaymentID construction from a numeric value
succeeds exactly for values below 2^256. -/
def paymentID_make (v : Nat) : Option Nat :=
  if v < 2 ^ 256 then some v else none

/-- Modelled from the spec (4.6): a PaymentID is short when its value fits in
64 bits. -/
def paymentID_is_short (v : Nat) : Bool :=
  v < 2 ^ 64

/-- The w most significant base-16 digits of v (for v < 16^w: the hex form of
v left-zero-padded to width w). -/
def hexDigitsBE : Nat → Nat → List Nat
  | 0, _ => []
  | w + 1, v => v / 16 ^ w % 16 :: hexDigitsBE w v

/-- Modelled from the spec (4.6): the canonical rendering zero-pads the hex
form of the value to 16 hex characters when short and 64 when long. -/
def paymentID_repr (v : Nat) : List Nat :=
  if paymentID_is_short v then hexDigitsBE 16 v else hexDigitsBE 64 v

/-- The numeric value of a big-endian hex digit string. -/
def hexValue (ds : List Nat) : Nat :=
  ds.foldl (fun a d => 16 * a + d) 0

/-- Modelled from the spec (4.6): PaymentID construction from a hex string
goes through the same numeric validation. -/
def paymentID_from_hex (ds : List Nat) : Option Nat :=
  paymentID_make (hexValue ds)

/- Equality of embedded results (Except over the error and state types above)
is decidable, so concrete runs of the constructors can be evaluated. -/
deriving instance DecidableEq for Except

/-- A concrete wallet used for witnesses and counterexamples: all-zero view
and spend key hex (64 zero hex digits each) on mainnet. -/
def zeroWallet : WalletState :=
  ⟨List.replicate 64 0, List.replicate 64 0, .mainnet⟩

/-! ## Hash test vectors -/

/-- Sanity check of the hash embedding against the published Keccak-256 test
vector for the empty message. -/
theorem keccak256_empty_message_vector :
    keccak256 [] =
      [0xc5, 0xd2, 0x46, 0x01, 0x86, 0xf7, 0x23, 0x3c, 0x92, 0x7e, 0x7d, 0xb2,
       0xdc, 0xc7, 0x03, 0xc0, 0xe5, 0x00, 0xb6, 0x53, 0xca, 0x82, 0x27, 0x3b,
       0x7b, 0xfa, 0xd8, 0x04, 0x5d, 0x85, 0xa4, 0x70] := by decide

/-- Sanity check of the hash embedding against the published Keccak-256 test
vector for the three-byte message 0x616263. -/
theorem keccak256_abc_vector :
    keccak256 [0x61, 0x62, 0x63] =
      [0x4e, 0x03, 0x65, 0x7a, 0xea, 0x45, 0xa9, 0x4f, 0xc7, 0xd4, 0x7b, 0xa8,
       0x26, 0xc8, 0xd6, 0x67, 0xc0, 0xd1, 0xe6, 0xe3, 0x3a, 0x64, 0xa0, 0x36,
       0xec, 0x44, 0xf5, 0x8f, 0xa1, 0x2d, 0x6c, 0x45] := by decide

/-! ## Supporting lemmas -/

theorem hexDigitsBE_length (w v : Nat) : (hexDigitsBE w v).length = w := by
  induction w generalizing v with
  | zero => rfl
  | succ w ih => simp [hexDigitsBE, ih]

theorem hexDigitsBE_foldl (w v a : Nat) :
    (hexDigitsBE w v).foldl (fun a d => 16 * a + d) a = a * 16 ^ w + v % 16 ^ w := by
  induction w generalizing a with
  | zero => simp [hexDigitsBE, Nat.mod_one]
  | succ w ih =>
    simp only [hexDigitsBE, List.foldl]
    rw [ih]
    have h : v % 16 ^ (w + 1) = v % 16 ^ w + 16 ^ w * (v / 16 ^ w % 16) := by
      rw [pow_succ, Nat.mod_mul]
    rw [h]; ring

theorem hexValue_hexDigitsBE (w v : Nat) (h : v < 16 ^ w) :
    hexValue (hexDigitsBE w v) = v := by
  have := hexDigitsBE_foldl w v 0
  simpa [hexValue, Nat.mod_eq_of_lt h] using this

theorem hexlify_length (bs : List Nat) : (hexlify bs).length = 2 * bs.length := by
  induction bs with
  | nil => rfl
  | cons b t ih => simp [hexlify] at ih ⊢; omega

theorem mod_shift (q r : Nat) (hr : r < wordlistN) :
    (wordlistN + (q + r) % wordlistN - r) % wordlistN = q % wordlistN := by
  unfold wordlistN at *; omega

theorem decodeBlock_encodeBlock (x : Nat) (hx : x < 4294967296) :
    decodeBlock (x % wordlistN) ((x / wordlistN + x % wordlistN) % wordlistN)
      ((x / wordlistN ^ 2 + (x / wordlistN + x % wordlistN) % wordlistN) % wordlistN) = x := by
  have e1 : (wordlistN + (x / wordlistN + x % wordlistN) % wordlistN - x % wordlistN) % wordlistN
      = x / wordlistN % wordlistN := mod_shift _ _ (by unfold wordlistN; omega)
  have e2 : (wordlistN +
        (x / wordlistN ^ 2 + (x / wordlistN + x % wordlistN) % wordlistN) % wordlistN
        - (x / wordlistN + x % wordlistN) % wordlistN) % wordlistN
      = x / wordlistN ^ 2 % wordlistN :=
    mod_shift (x / wordlistN ^ 2) ((x / wordlistN + x % wordlistN) % wordlistN)
      (by unfold wordlistN; omega)
  unfold decodeBlock
  rw [e1, e2]
  unfold wordlistN at *
  omega

theorem mod_unshift (u v : Nat) (hu : u < wordlistN) (hv : v < wordlistN) :
    ((wordlistN + v - u) % wordlistN + u) % wordlistN = v := by
  unfold wordlistN at *; omega

theorem encodeBlock_decodeBlock (w1 w2 w3 : Nat)
    (h1 : w1 < wordlistN) (h2 : w2 < wordlistN) (h3 : w3 < wordlistN) :
    encodeBlock (decodeBlock w1 w2 w3) = [w1, w2, w3] := by
  have hdr : decodeBlock w1 w2 w3 % wordlistN = w1 := by
    unfold decodeBlock wordlistN at *; omega
  have hdq : decodeBlock w1 w2 w3 / wordlistN =
      (wordlistN + w2 - w1) % wordlistN
        + wordlistN * ((wordlistN + w3 - w2) % wordlistN) := by
    unfold decodeBlock wordlistN at *; omega
  have hdq2 : decodeBlock w1 w2 w3 / wordlistN ^ 2 = (wordlistN + w3 - w2) % wordlistN := by
    unfold decodeBlock wordlistN at *; omega
  have hc2 : (decodeBlock w1 w2 w3 / wordlistN + decodeBlock w1 w2 w3 % wordlistN) % wordlistN
      = w2 := by
    rw [hdr, hdq]
    have hsw : (wordlistN + w2 - w1) % wordlistN
          + wordlistN * ((wordlistN + w3 - w2) % wordlistN) + w1
        = (wordlistN + w2 - w1) % wordlistN + w1
          + wordlistN * ((wordlistN + w3 - w2) % wordlistN) := by ring
    rw [hsw, Nat.add_mul_mod_self_left]
    exact mod_unshift w1 w2 h1 h2
  unfold encodeBlock
  rw [hc2, hdr, hdq2, mod_unshift w2 w3 h2 h3]

theorem bytesToBlocks_le32 (x : Nat) (hx : x < 4294967296) (rest : List Nat) :
    bytesToBlocks (le32 x ++ rest) = x :: bytesToBlocks rest := by
  simp only [le32, List.cons_append, List.nil_append, bytesToBlocks]
  congr 1
  omega

theorem bytesToBlocks_flatMap_le32 (xs : List Nat) (hxs : ∀ x ∈ xs, x < 4294967296) :
    bytesToBlocks (xs.flatMap le32) = xs := by
  induction xs with
  | nil => rfl
  | cons x t ih =>
    rw [List.flatMap_cons, bytesToBlocks_le32 x (hxs x (by simp)) (t.flatMap le32),
      ih (fun y hy => hxs y (by simp [hy]))]

theorem flatMap_le32_bytesToBlocks (bs : List Nat) (hlen : bs.length % 4 = 0)
    (hb : ∀ b ∈ bs, b < 256) :
    (bytesToBlocks bs).flatMap le32 = bs := by
  induction bs using bytesToBlocks.induct with
  | case1 b0 b1 b2 b3 rest ih =>
    rw [bytesToBlocks, List.flatMap_cons]
    rw [ih (by simp at hlen ⊢; omega) (fun b hb' => hb b (by simp [hb']))]
    have h0 : b0 < 256 := hb b0 (by simp)
    have h1 : b1 < 256 := hb b1 (by simp)
    have h2 : b2 < 256 := hb b2 (by simp)
    have h3 : b3 < 256 := hb b3 (by simp)
    simp only [le32, List.cons_append, List.nil_append, List.cons.injEq]
    refine ⟨by omega, by omega, by omega, by omega, trivial⟩
  | case2 bs h =>
    rcases bs with _ | ⟨a, _ | ⟨b, _ | ⟨c, _ | ⟨d, rest⟩⟩⟩⟩
    · rfl
    · simp at hlen
    · simp at hlen
    · simp at hlen
    · exact (h a b c d rest rfl).elim

theorem wordsToBlocks_encodeBlock (x : Nat) (hx : x < 4294967296) (rest : List Nat) :
    wordsToBlocks (encodeBlock x ++ rest) = x :: wordsToBlocks rest := by
  simp only [encodeBlock, List.cons_append, List.nil_append, wordsToBlocks]
  rw [decodeBlock_encodeBlock x hx]
  rfl

theorem wordsToBlocks_flatMap_encodeBlock (xs : List Nat) (hxs : ∀ x ∈ xs, x < 4294967296)
    (rest : List Nat) :
    wordsToBlocks (xs.flatMap encodeBlock ++ rest) = xs ++ wordsToBlocks rest := by
  induction xs with
  | nil => rfl
  | cons x t ih =>
    rw [List.flatMap_cons, List.append_assoc,
      wordsToBlocks_encodeBlock x (hxs x (by simp)) (t.flatMap encodeBlock ++ rest),
      ih (fun y hy => hxs y (by simp [hy])), List.cons_append]

theorem flatMap_encodeBlock_wordsToBlocks (ws : List Nat) (hw : ∀ w ∈ ws, w < wordlistN) :
    (wordsToBlocks ws).flatMap encodeBlock = ws.take (3 * (ws.length / 3)) := by
  induction ws using wordsToBlocks.induct with
  | case1 w1 w2 w3 rest ih =>
    rw [wordsToBlocks, List.flatMap_cons,
      encodeBlock_decodeBlock w1 w2 w3 (hw w1 (by simp)) (hw w2 (by simp)) (hw w3 (by simp)),
      ih (fun y hy => hw y (by simp [hy]))]
    have harith : 3 * ((w1 :: w2 :: w3 :: rest).length / 3) = 3 * (rest.length / 3) + 3 := by
      simp; omega
    rw [harith]
    rfl
  | case2 t h =>
    rcases t with _ | ⟨a, _ | ⟨b, t'⟩⟩
    · rfl
    · simp [wordsToBlocks]
    · rcases t' with _ | ⟨c, rest⟩
      · simp [wordsToBlocks]
      · exact (h a b c rest rfl).elim

theorem encodeBlock_mem_lt (x w : Nat) (hw : w ∈ encodeBlock x) : w < wordlistN := by
  simp [encodeBlock] at hw
  rcases hw with h | h | h <;> (rw [h]; unfold wordlistN; omega)

theorem getD_lt (l : List Nat) (i : Nat) (hl : ∀ w ∈ l, w < wordlistN) :
    l.getD i 0 < wordlistN := by
  by_cases hi : i < l.length
  · rw [List.getD_eq_getElem l 0 hi]
    exact hl _ (List.getElem_mem hi)
  · rw [List.getD_eq_default _ _ (by omega)]
    unfold wordlistN; omega

theorem bytesToBlocks_mem_lt (bs : List Nat) (hb : ∀ b ∈ bs, b < 256) :
    ∀ x ∈ bytesToBlocks bs, x < 4294967296 := by
  induction bs using bytesToBlocks.induct with
  | case1 b0 b1 b2 b3 rest ih =>
    intro x hx
    rw [bytesToBlocks] at hx
    rcases List.mem_cons.mp hx with h | h
    · have h0 : b0 < 256 := hb b0 (by simp)
      have h1 : b1 < 256 := hb b1 (by simp)
      have h2 : b2 < 256 := hb b2 (by simp)
      have h3 : b3 < 256 := hb b3 (by simp)
      omega
    · exact ih (fun b hb' => hb b (by simp [hb'])) x h
  | case2 t h =>
    rcases t with _ | ⟨a, _ | ⟨b, _ | ⟨c, _ | ⟨d, rest⟩⟩⟩⟩ <;>
      first
        | exact (h _ _ _ _ _ rfl).elim
        | (intro x hx; simp [bytesToBlocks] at hx)

theorem bytesToBlocks_length (bs : List Nat) :
    (bytesToBlocks bs).length = bs.length / 4 := by
  induction bs using bytesToBlocks.induct with
  | case1 b0 b1 b2 b3 rest ih => simp [bytesToBlocks, ih]; omega
  | case2 t h =>
    rcases t with _ | ⟨a, _ | ⟨b, _ | ⟨c, _ | ⟨d, rest⟩⟩⟩⟩ <;>
      first
        | exact (h _ _ _ _ _ rfl).elim
        | simp [bytesToBlocks]

theorem flatMap_encodeBlock_length (xs : List Nat) :
    (xs.flatMap encodeBlock).length = 3 * xs.length := by
  induction xs with
  | nil => rfl
  | cons x t ih => simp [List.flatMap_cons, encodeBlock] at ih ⊢; omega

theorem getLastD_irrel (t : List Nat) (b x y : Nat) :
    (b :: t).getLastD x = (b :: t).getLastD y := by
  induction t generalizing b with
  | nil => rfl
  | cons c t' ih => exact ih c

theorem take_append_getLastD (l : List Nat) (h : l.length ≠ 0) :
    l.take (l.length - 1) ++ [l.getLastD 0] = l := by
  induction l with
  | nil => simp at h
  | cons a t ih =>
    rcases t with _ | ⟨b, t'⟩
    · rfl
    · have ih' := ih (by simp)
      simp only [List.length_cons, Nat.add_sub_cancel] at ih' ⊢
      rw [List.take_succ_cons,
        show (a :: b :: t').getLastD 0 = (b :: t').getLastD a from rfl,
        getLastD_irrel t' b a 0, List.cons_append, ih']

/-! ## Claim theorems -/

/-- C1: For every Seed, secret_spend_key() equals
reduce_scalar(Keccak256(entropy_bytes)) when the stored hex has 32 characters
(short/legacy form) and reduce_scalar(entropy_bytes) when it has 64
characters; and secret_view_key() equals reduce_scalar(Keccak256(x)) where x
is Keccak256(entropy_bytes) in the short form and the secret spend key bytes
in the long form. -/
theorem seed_secret_keys_match_spec (hex : List Nat) :
    (hex.length = 32 →
      secret_spend_key hex = hexlify (spec_reduce_scalar (keccak256 (unhexlify hex))) ∧
      secret_view_key hex =
        hexlify (spec_reduce_scalar (keccak256 (keccak256 (unhexlify hex))))) ∧
    (hex.length = 64 →
      secret_spend_key hex = hexlify (spec_reduce_scalar (unhexlify hex)) ∧
      secret_view_key hex =
        hexlify (spec_reduce_scalar (keccak256 (unhexlify (secret_spend_key hex))))) := by
  constructor
  · intro h
    have hm : is_myuplexa hex = true := by simp [is_myuplexa, h]
    constructor
    · simp [secret_spend_key, hm, sc_reduce, spec_reduce_scalar, hex_seed_keccak]
    · simp [secret_view_key, hm, sc_reduce, spec_reduce_scalar, hex_seed_keccak]
  · intro h
    have hm : is_myuplexa hex = false := by simp [is_myuplexa, h]
    constructor
    · simp [secret_spend_key, hm, sc_reduce, spec_reduce_scalar]
    · simp [secret_view_key, hm, sc_reduce, spec_reduce_scalar]

/-- Witness for C1 at concrete short- and long-form seeds (32 and 64 zero hex
digits). -/
theorem seed_secret_keys_match_spec_witness :
    (List.replicate 32 0).length = 32 ∧
    secret_spend_key (List.replicate 32 0) =
      hexlify (spec_reduce_scalar (keccak256 (unhexlify (List.replicate 32 0)))) ∧
    (List.replicate 64 0).length = 64 ∧
    secret_spend_key (List.replicate 64 0) =
      hexlify (spec_reduce_scalar (unhexlify (List.replicate 64 0))) :=
  ⟨by decide,
   ((seed_secret_keys_match_spec (List.replicate 32 0)).1 (by decide)).1,
   by decide,
   ((seed_secret_keys_match_spec (List.replicate 64 0)).2 (by decide)).1⟩

/-- C2 counterexample: the claim "encode(decode(p)) == p for every valid
phrase of 12, 13, 24, or 25 words" fails at the valid 12-word phrase of
all-zero word indices: its decode is the 16 zero bytes, whose encoding is that
phrase with the checksum word appended (13 words), not the phrase itself. -/
theorem wordlist_roundtrip_counterexample :
    wordlistDecode (List.replicate 12 0) = some (List.replicate 16 0) ∧
    wordlistEncode (List.replicate 16 0) ≠ List.replicate 12 0 := by
  constructor <;> decide

/-- C2 (amended): decode(encode(e)) == e for every 16- or 32-byte entropy;
encode(decode(p)) == p exactly for valid 13- and 25-word phrases whose
checksum word is correct; for valid 12- and 24-word phrases,
encode(decode(p)) is p with the checksum word appended. -/
theorem wordlist_roundtrips_amended :
    (∀ bs : List Nat, (bs.length = 16 ∨ bs.length = 32) → (∀ b ∈ bs, b < 256) →
      wordlistDecode (wordlistEncode bs) = some bs) ∧
    (∀ ws bs : List Nat, wordlistDecode ws = some bs →
      ((ws.length = 13 ∨ ws.length = 25) → validate_checksum ws = true →
        wordlistEncode bs = ws) ∧
      ((ws.length = 12 ∨ ws.length = 24) →
        wordlistEncode bs = ws ++ [get_checksum ws])) := by
  constructor
  · intro bs hlen hb
    have hblt := bytesToBlocks_mem_lt bs hb
    have henc : wordlistEncode bs =
        (bytesToBlocks bs).flatMap encodeBlock ++
          [get_checksum ((bytesToBlocks bs).flatMap encodeBlock)] := rfl
    have hWmem : ∀ w ∈ (bytesToBlocks bs).flatMap encodeBlock, w < wordlistN := by
      intro w hw
      rcases List.mem_flatMap.mp hw with ⟨x, _, hxw⟩
      exact encodeBlock_mem_lt x w hxw
    have hWlen : ((bytesToBlocks bs).flatMap encodeBlock).length = 3 * (bs.length / 4) := by
      rw [flatMap_encodeBlock_length, bytesToBlocks_length]
    have hcs : get_checksum ((bytesToBlocks bs).flatMap encodeBlock) < wordlistN := by
      unfold get_checksum
      apply getD_lt
      unfold checksumBase
      split_ifs <;> (intro w hw; exact hWmem w (List.mem_of_mem_take hw))
    have hwords : ∀ w ∈ wordlistEncode bs, w < wordlistN := by
      rw [henc]
      intro w hw
      rcases List.mem_append.mp hw with h | h
      · exact hWmem w h
      · simp at h; omega
    have hwb : wordsToBlocks (wordlistEncode bs) = bytesToBlocks bs := by
      rw [henc]
      have := wordsToBlocks_flatMap_encodeBlock (bytesToBlocks bs) hblt
        [get_checksum ((bytesToBlocks bs).flatMap encodeBlock)]
      simpa [wordsToBlocks] using this
    have hplen : (wordlistEncode bs).length = 3 * (bs.length / 4) + 1 := by
      rw [henc]; simp [hWlen]
    have hsupp : supportedWordCount (wordlistEncode bs).length = true := by
      rw [hplen]
      rcases hlen with h | h <;> rw [h] <;> rfl
    rw [wordlistDecode, if_pos, hwb, flatMap_le32_bytesToBlocks bs (by omega) hb]
    rw [hsupp, hwb]
    simp only [Bool.true_and, Bool.and_eq_true, List.all_eq_true]
    constructor
    · intro w hw
      simpa using hwords w hw
    · intro x hx
      simpa using hblt x hx
  · intro ws bs hdec
    rw [wordlistDecode] at hdec
    split_ifs at hdec with hcond
    simp only [Option.some.injEq] at hdec
    simp only [Bool.and_eq_true, List.all_eq_true, decide_eq_true_eq] at hcond
    obtain ⟨⟨hsupp, hwords⟩, hblk⟩ := hcond
    have hbw : bytesToBlocks bs = wordsToBlocks ws := by
      rw [← hdec]
      exact bytesToBlocks_flatMap_le32 (wordsToBlocks ws) hblk
    have hfm : (wordsToBlocks ws).flatMap encodeBlock = ws.take (3 * (ws.length / 3)) :=
      flatMap_encodeBlock_wordsToBlocks ws hwords
    have henc : wordlistEncode bs = ws.take (3 * (ws.length / 3)) ++
        [get_checksum (ws.take (3 * (ws.length / 3)))] := by
      rw [wordlistEncode, hbw, hfm]
    constructor
    · rintro (h | h) hcs
      · have htake : 3 * (ws.length / 3) = 12 := by omega
        have hbase : checksumBase (ws.take 12) = checksumBase ws := by
          unfold checksumBase
          rw [if_neg (by simp [h]), if_neg (by omega), List.take_take]
          simp
        have hgc : get_checksum (ws.take 12) = get_checksum ws := by
          unfold get_checksum
          rw [hbase]
        rw [henc, htake, hgc]
        rw [validate_checksum] at hcs
        simp only [beq_iff_eq] at hcs
        rw [hcs, show (12 : Nat) = ws.length - 1 by omega]
        exact take_append_getLastD ws (by omega)
      · have htake : 3 * (ws.length / 3) = 24 := by omega
        have hbase : checksumBase (ws.take 24) = checksumBase ws := by
          unfold checksumBase
          rw [if_pos (by simp [h]), if_pos (by omega), List.take_take]
          simp
        have hgc : get_checksum (ws.take 24) = get_checksum ws := by
          unfold get_checksum
          rw [hbase]
        rw [henc, htake, hgc]
        rw [validate_checksum] at hcs
        simp only [beq_iff_eq] at hcs
        rw [hcs, show (24 : Nat) = ws.length - 1 by omega]
        exact take_append_getLastD ws (by omega)
    · rintro (h | h)
      · have htake : 3 * (ws.length / 3) = 12 := by omega
        have hws : ws.take 12 = ws := List.take_of_length_le (by omega)
        rw [henc, htake, hws]
      · have htake : 3 * (ws.length / 3) = 24 := by omega
        have hws : ws.take 24 = ws := List.take_of_length_le (by omega)
        rw [henc, htake, hws]

/-- Witness for the amended C2 at concrete inputs: the 16 zero bytes
round-trip through encode/decode, and the all-zero 12-word phrase decodes and
re-encodes to itself plus its checksum word. -/
theorem wordlist_roundtrips_amended_witness :
    (List.replicate 16 0).length = 16 ∧
    wordlistDecode (wordlistEncode (List.replicate 16 0)) = some (List.replicate 16 0) ∧
    wordlistDecode (List.replicate 12 0) = some (List.replicate 16 0) ∧
    wordlistEncode (List.replicate 16 0) =
      List.replicate 12 0 ++ [get_checksum (List.replicate 12 0)] :=
  ⟨by decide,
   wordlist_roundtrips_amended.1 (List.replicate 16 0) (Or.inl (by decide)) (by decide),
   by decide,
   (wordlist_roundtrips_amended.2 (List.replicate 12 0) (List.replicate 16 0)
      (by decide)).2 (Or.inl (by decide))⟩

set_option maxHeartbeats 4000000 in
/-- C3 counterexample: the claim that the raw hash output is reduced modulo
the subgroup order before being used as the scalar in m*B fails at the
concrete wallet with 32 zero view-key bytes and (major, minor) = (0, 1): the
address actually computed differs from the one built on the reduced scalar,
because the decoded digest exceeds the subgroup order. -/
theorem subaddr_scalar_reduction_counterexample :
    get_address zeroWallet 0 1 ≠
      .ok (.sub (sub_netbyte zeroWallet.net) (subaddr_spend_point_reduced zeroWallet 0 1)
        (subaddr_view_point_reduced zeroWallet 0 1)) ∧
    curveL ≤ subaddr_scalar_used zeroWallet 0 1 := by
  constructor <;> decide

/-- C3 (amended): in sub-address derivation the hash output m is decoded as a
little-endian integer and passed to the scalar multiplication m*B without
reduction modulo the subgroup order; the scalar used is congruent modulo the
order to the reduced scalar the spec prescribes, but is itself unreduced. -/
theorem subaddr_scalar_unreduced (w : WalletState) (major minor : Int)
    (hmaj : 0 ≤ major ∧ major < 2 ^ 32) (hmin : 0 ≤ minor ∧ minor < 2 ^ 32)
    (hne : ¬(major = 0 ∧ minor = 0)) :
    get_address w major minor =
      .ok (.sub (sub_netbyte w.net) (subaddr_spend_point w major minor)
        (subaddr_view_point w major minor)) ∧
    subaddr_scalar_used w major minor % curveL =
      spec_reduce_scalar_val (keccak256 (subaddr_hash_data w major minor)) := by
  constructor
  · unfold get_address
    rw [if_neg (by omega), if_neg (by omega), if_neg hne]
    rfl
  · rfl

/-- Witness for the amended C3 at the concrete wallet and indices (1, 0). -/
theorem subaddr_scalar_unreduced_witness :
    (0 ≤ (1 : Int) ∧ (1 : Int) < 2 ^ 32) ∧ (0 ≤ (0 : Int) ∧ (0 : Int) < 2 ^ 32) ∧
    ¬((1 : Int) = 0 ∧ (0 : Int) = 0) ∧
    (get_address zeroWallet 1 0 =
        .ok (.sub (sub_netbyte zeroWallet.net) (subaddr_spend_point zeroWallet 1 0)
          (subaddr_view_point zeroWallet 1 0)) ∧
      subaddr_scalar_used zeroWallet 1 0 % curveL =
        spec_reduce_scalar_val (keccak256 (subaddr_hash_data zeroWallet 1 0))) :=
  ⟨⟨by decide, by decide⟩, ⟨by decide, by decide⟩, by decide,
   subaddr_scalar_unreduced zeroWallet 1 0 ⟨by decide, by decide⟩
     ⟨by decide, by decide⟩ (by decide)⟩

/-- C4: Wallet.get_address(0, 0) returns the master address itself (no curve
arithmetic: the result carries no derived point); every other in-range pair
goes through the sub-address derivation. -/
theorem get_address_zero_zero_master (w : WalletState) (major minor : Int)
    (hmaj : 0 ≤ major ∧ major < 2 ^ 32) (hmin : 0 ≤ minor ∧ minor < 2 ^ 32) :
    (major = 0 ∧ minor = 0 → get_address w major minor = .ok .master) ∧
    (¬(major = 0 ∧ minor = 0) →
      get_address w major minor =
        .ok (.sub (sub_netbyte w.net) (subaddr_spend_point w major minor)
          (subaddr_view_point w major minor))) := by
  unfold get_address
  rw [if_neg (by omega), if_neg (by omega)]
  constructor
  · intro h; rw [if_pos h]
  · intro h; rw [if_neg h]; rfl

/-- Witness for C4 at the concrete wallet: (0,0) yields the master address,
(1,1) yields a derived sub-address. -/
theorem get_address_zero_zero_master_witness :
    (0 ≤ (0 : Int) ∧ (0 : Int) < 2 ^ 32) ∧
    get_address zeroWallet 0 0 = .ok .master ∧
    get_address zeroWallet 1 1 =
      .ok (.sub (sub_netbyte zeroWallet.net) (subaddr_spend_point zeroWallet 1 1)
        (subaddr_view_point zeroWallet 1 1)) :=
  ⟨⟨by decide, by decide⟩,
   (get_address_zero_zero_master zeroWallet 0 0 ⟨by decide, by decide⟩
      ⟨by decide, by decide⟩).1 ⟨rfl, rfl⟩,
   (get_address_zero_zero_master zeroWallet 1 1 ⟨by decide, by decide⟩
      ⟨by decide, by decide⟩).2 (by decide)⟩

/-- C5: constructing a Seed from a multi-word phrase fails with an
invalid-phrase error for every word count outside {12, 13, 24, 25}, and
succeeds only for those counts. -/
theorem seed_phrase_word_count_validation (ws : List Nat) (hmulti : 2 ≤ ws.length) :
    (supportedWordCount ws.length = false →
      seedFromPhrase ws = .error .invalidPhrase) ∧
    (exceptIsOk (seedFromPhrase ws) = true → supportedWordCount ws.length = true) := by
  have hdec : supportedWordCount ws.length = false → wordlistDecode ws = none := by
    intro h; simp [wordlistDecode, h]
  have ha : supportedWordCount ws.length = false →
      seedFromPhrase ws = .error .invalidPhrase := by
    intro h
    unfold seedFromPhrase
    have h25 : ws.length ≠ 25 := by
      intro hc; rw [hc] at h; simp [supportedWordCount] at h
    have h13 : ws.length ≠ 13 := by
      intro hc; rw [hc] at h; simp [supportedWordCount] at h
    split_ifs with hb1 hb2 hb3 hb4 <;>
      first
        | rfl
        | (exact absurd hb2.1 h25)
        | (exact absurd hb4.1 h13)
        | (rw [hdec h])
  refine ⟨ha, fun hok => ?_⟩
  by_contra hsup
  rw [Bool.not_eq_true] at hsup
  rw [ha hsup] at hok
  exact absurd hok (by simp [exceptIsOk])

/-- Witness for C5 at a concrete 14-word phrase, an unsupported count. -/
theorem seed_phrase_word_count_validation_witness :
    2 ≤ (List.replicate 14 0).length ∧
    supportedWordCount (List.replicate 14 0).length = false ∧
    seedFromPhrase (List.replicate 14 0) = .error .invalidPhrase :=
  ⟨by decide, by decide,
   (seed_phrase_word_count_validation (List.replicate 14 0) (by decide)).1 (by decide)⟩

/-- C6: for a phrase of exactly 13 or 25 words, construction raises a checksum
error exactly when the computed checksum word differs from the last word;
phrases of 12 or 24 words never raise a checksum error. -/
theorem seed_checksum_validation (ws : List Nat) :
    ((ws.length = 13 ∨ ws.length = 25) →
      (seedFromPhrase ws = .error .invalidChecksum ↔
        get_checksum ws ≠ ws.getLastD 0)) ∧
    ((ws.length = 12 ∨ ws.length = 24) →
      seedFromPhrase ws ≠ .error .invalidChecksum) := by
  have hvc : (validate_checksum ws = false) ↔ get_checksum ws ≠ ws.getLastD 0 := by
    simp [validate_checksum]
  constructor
  · rintro (h | h)
    · rw [← hvc]
      unfold seedFromPhrase
      rw [if_neg (by omega), if_pos (by omega)]
      constructor
      · intro he
        by_contra hcs
        rw [Bool.not_eq_false] at hcs
        rw [if_neg (by simp [hcs])] at he
        revert he
        cases wordlistDecode ws <;> simp
      · intro hcs
        rw [if_pos ⟨h, hcs⟩]
    · rw [← hvc]
      unfold seedFromPhrase
      rw [if_pos (by omega)]
      constructor
      · intro he
        by_contra hcs
        rw [Bool.not_eq_false] at hcs
        rw [if_neg (by simp [hcs])] at he
        revert he
        cases wordlistDecode ws <;> simp
      · intro hcs
        rw [if_pos ⟨h, hcs⟩]
  · rintro (h | h)
    · unfold seedFromPhrase
      rw [if_neg (by omega), if_pos (by omega), if_neg (by omega)]
      cases wordlistDecode ws <;> simp
    · unfold seedFromPhrase
      rw [if_pos (by omega), if_neg (by omega)]
      cases wordlistDecode ws <;> simp

/-- Witness for C6 at the concrete all-zero 13-word phrase. -/
theorem seed_checksum_validation_witness :
    ((List.replicate 13 0).length = 13 ∨ (List.replicate 13 0).length = 25) ∧
    (seedFromPhrase (List.replicate 13 0) = .error .invalidChecksum ↔
      get_checksum (List.replicate 13 0) ≠ (List.replicate 13 0).getLastD 0) :=
  ⟨Or.inl (by decide),
   (seed_checksum_validation (List.replicate 13 0)).1 (Or.inl (by decide))⟩

/-- C7: to_atomic multiplies by 10^12 and rounds to nearest with ties away
from zero — to_atomic(1) = 10^12, to_atomic(1.0000000000004) = 10^12, a tie
at half an atomic unit rounds away from zero in both signs — and from_atomic
divides by 10^12 exactly, so from_atomic(1) = 0.000000000001. -/
theorem atomic_amount_exactness :
    to_atomic 1 = 1000000000000 ∧
    to_atomic (10000000000004 / 10 ^ 13) = 1000000000000 ∧
    from_atomic 1 = 1 / 10 ^ 12 ∧
    to_atomic 0 = 0 ∧
    to_atomic (1 / 10 ^ 12) = 1 ∧
    to_atomic (5 / 10 ^ 13) = 1 ∧
    to_atomic (-(5 / 10 ^ 13)) = -1 := by
  refine ⟨?_, ?_, ?_, ?_, ?_, ?_, ?_⟩ <;> norm_num [to_atomic, from_atomic]

/-- C8: PaymentID construction succeeds exactly for values in [0, 2^256), so
it fails at 2^256 + 1; is_short() holds exactly when the value fits in 64
bits; and the canonical rendering is the value's hex form zero-padded to 16
hex digits when short and 64 when long, independent of how the value was
supplied. -/
theorem payment_id_contract :
    (∀ v : Nat, (paymentID_make v).isSome = true ↔ v < 2 ^ 256) ∧
    paymentID_make (2 ^ 256 + 1) = none ∧
    (∀ v : Nat, paymentID_is_short v = true ↔ v < 2 ^ 64) ∧
    (∀ v : Nat, v < 2 ^ 256 →
      (paymentID_repr v).length = (if v < 2 ^ 64 then 16 else 64) ∧
      hexValue (paymentID_repr v) = v ∧
      paymentID_from_hex (paymentID_repr v) = some v) := by
  refine ⟨?_, ?_, ?_, ?_⟩
  · intro v; by_cases h : v < 2 ^ 256 <;> simp [paymentID_make, h]
  · simp [paymentID_make]
  · intro v; simp [paymentID_is_short]
  · intro v hv
    by_cases hs : v < 2 ^ 64
    · have hshort : paymentID_is_short v = true := by
        simp [paymentID_is_short]; exact hs
      have hr : paymentID_repr v = hexDigitsBE 16 v := by
        rw [paymentID_repr, hshort]; rfl
      have hval : hexValue (paymentID_repr v) = v := by
        rw [hr]
        exact hexValue_hexDigitsBE 16 v (lt_of_lt_of_le hs (by norm_num))
      refine ⟨?_, hval, ?_⟩
      · rw [hr, hexDigitsBE_length, if_pos hs]
      · rw [paymentID_from_hex, hval, paymentID_make, if_pos hv]
    · have hshort : paymentID_is_short v = false := by
        simp [paymentID_is_short]; omega
      have hr : paymentID_repr v = hexDigitsBE 64 v := by
        rw [paymentID_repr, hshort]; rfl
      have hval : hexValue (paymentID_repr v) = v := by
        rw [hr]
        exact hexValue_hexDigitsBE 64 v (lt_of_lt_of_le hv (by norm_num))
      refine ⟨?_, hval, ?_⟩
      · rw [hr, hexDigitsBE_length, if_neg hs]
      · rw [paymentID_from_hex, hval, paymentID_make, if_pos hv]

/-- Witness for C8 at the concrete value 0 (the test's PaymentID of the zero
hex string). -/
theorem payment_id_contract_witness :
    (0 : Nat) < 2 ^ 256 ∧
    ((paymentID_repr 0).length = (if (0 : Nat) < 2 ^ 64 then 16 else 64) ∧
      hexValue (paymentID_repr 0) = 0 ∧
      paymentID_from_hex (paymentID_repr 0) = some 0) :=
  ⟨by decide, payment_id_contract.2.2.2 0 (by decide)⟩

/-- C9: Wallet.get_address raises a validation error exactly when major or
minor is negative or at least 2^32, with the major index checked first; for
in-range pairs no error is raised. -/
theorem get_address_index_validation (w : WalletState) (major minor : Int) :
    (exceptIsOk (get_address w major minor) = false ↔
      (major < 0 ∨ 2 ^ 32 ≤ major ∨ minor < 0 ∨ 2 ^ 32 ≤ minor)) ∧
    ((major < 0 ∨ 2 ^ 32 ≤ major) → get_address w major minor = .error .majorOutOfRange) ∧
    (0 ≤ major → major < 2 ^ 32 → (minor < 0 ∨ 2 ^ 32 ≤ minor) →
      get_address w major minor = .error .minorOutOfRange) := by
  unfold get_address
  split_ifs with h1 h2 h3 <;> simp [exceptIsOk] <;> omega

/-- Witness for C9 at concrete out-of-range indices. -/
theorem get_address_index_validation_witness :
    ((-1 : Int) < 0 ∨ 2 ^ 32 ≤ (-1 : Int)) ∧
    get_address zeroWallet (-1) 0 = .error .majorOutOfRange ∧
    get_address zeroWallet 0 (2 ^ 32) = .error .minorOutOfRange :=
  ⟨Or.inl (by decide),
   (get_address_index_validation zeroWallet (-1) 0).2.1 (Or.inl (by decide)),
   (get_address_index_validation zeroWallet 0 (2 ^ 32)).2.2 (by decide) (by decide)
     (Or.inr (by decide))⟩

/-- C10: a Seed constructed with no argument from 32 random bytes stores a
64-character hex string, is not MyuPlexa-style, and derives its keys through
the long-form branch (no extra Keccak hash of the entropy); generate_hex
returns twice as many hex characters as input bytes. -/
theorem default_seed_long_form :
    (∀ rb : List Nat, rb.length = 32 →
      (seedFromEmpty rb).hex.length = 64 ∧
      is_myuplexa (seedFromEmpty rb).hex = false ∧
      secret_spend_key (seedFromEmpty rb).hex =
        sc_reduce (unhexlify (seedFromEmpty rb).hex) ∧
      secret_view_key (seedFromEmpty rb).hex =
        sc_reduce (keccak256 (unhexlify (secret_spend_key (seedFromEmpty rb).hex)))) ∧
    (∀ bs : List Nat, (generate_hex bs).length = 2 * bs.length) := by
  constructor
  · intro rb h
    have hl : (seedFromEmpty rb).hex.length = 64 := by
      simp [seedFromEmpty, generate_hex, hexlify_length, h]
    have hm : is_myuplexa (seedFromEmpty rb).hex = false := by
      simp [is_myuplexa, hl]
    refine ⟨hl, hm, ?_, ?_⟩
    · simp [secret_spend_key, hm]
    · simp [secret_view_key, hm]
  · intro bs; exact hexlify_length bs

/-- Witness for C10 at 32 concrete zero random bytes. -/
theorem default_seed_long_form_witness :
    (List.replicate 32 0).length = 32 ∧
    (seedFromEmpty (List.replicate 32 0)).hex.length = 64 ∧
    is_myuplexa (seedFromEmpty (List.replicate 32 0)).hex = false :=
  ⟨by decide,
   (default_seed_long_form.1 (List.replicate 32 0) (by decide)).1,
   (default_seed_long_form.1 (List.replicate 32 0) (by decide)).2.1⟩
